import Mathlib

/-!
Verification of the Inventory Reconciliation & Deep Resolution Engine of the
net-ops-v3 repository, shallowly embedded from the Python source:

* `src/managers/sync_manager.py` — `SyncManager.sync_all` and its four phases
  (wipe, leaf objects, groups, security rules);
* `src/routes/ops_routes.py` — `resolve_object_content`;
* `src/routes/rule_routes.py` — `robust_link` (inside `approve_single_rule`);
* `src/routes/object_routes.py` — `approve_object`.

Modelling conventions:

* Snapshot records are association lists from string keys to loosely-typed
  values (`FieldVal`: a string or a flat list of strings).  A Python
  `None`-valued key is modelled as an absent key — both are falsy in every
  `or`-chain the source uses on record fields.
* The SQLAlchemy session is modelled as a pair of stores (`committed`,
  `pending`); `commit` copies pending to committed, `rollback` copies
  committed back over pending.
* Python `set(...)` iteration has unspecified order; it is modelled with
  `List.dedup`.  Every claim below is about the set of produced rows, never
  about their order.
* Exceptions inside `sync_all` are modelled by an explicit injection point
  (`failAt`): the code of phases 1-4 runs inside one `try` whose handler
  rolls the transaction back, so the position of the raise inside a phase is
  irrelevant to the post-state.
* The backing database is the SQLite file configured in `config.py`; a table
  whose rows were all deleted hands out ids starting from 1 again (implicit
  rowid = max+1 semantics), so the full wipe of phase 1 resets the per-table
  id counters.
-/

set_option maxHeartbeats 1000000

namespace NetOps

/-- Model of Python `str.lower()` (ASCII, which covers every identifier in
scope), written over the character list so that it evaluates inside the
kernel. -/
def strLower (s : String) : String := String.mk (s.data.map Char.toLower)

/-- Model of Python `str.strip()`: drop leading and trailing whitespace. -/
def pyStrip (s : String) : String :=
  String.mk (((s.data.dropWhile Char.isWhitespace).reverse.dropWhile Char.isWhitespace).reverse)

/-- Model of Python `str.replace(' ', '')`: remove every space. -/
def stripSpaces (s : String) : String :=
  String.mk (s.data.filter (fun c => c ≠ ' '))

/-- Worker for `splitComma`. -/
def splitCommaAux : List Char → List Char → List String
  | [], acc => [String.mk acc.reverse]
  | c :: cs, acc =>
    if c = ',' then String.mk acc.reverse :: splitCommaAux cs []
    else splitCommaAux cs (c :: acc)

/-- Model of Python `str.split(',')` (note `''.split(',') == ['']`). -/
def splitComma (s : String) : List String := splitCommaAux s.data []

/-- A loosely-typed snapshot field value: a string or a flat list of strings,
as produced by the device client's `about()` dictionaries. -/
inductive FieldVal where
  | s (v : String)
  | l (vs : List String)
deriving DecidableEq, Repr

/-- A snapshot record: a Python dict, modelled as an association list. -/
abbrev Record := List (String × FieldVal)

/-- First-match association-list lookup (Python `dict.get`). -/
def alookup {β : Type} : List (String × β) → String → Option β
  | [], _ => none
  | (k', v) :: rest, k => if k' = k then some v else alookup rest k

/-- Python truthiness of a field value: empty strings and empty lists are
falsy. -/
def FieldVal.truthy : FieldVal → Bool
  | .s v => v ≠ ""
  | .l vs => vs ≠ []

/-- Model of the Python `a.get(k1) or a.get(k2) or ...` chain: the first
candidate key bound to a truthy value, if any. -/
def firstTruthy (r : Record) : List String → Option FieldVal
  | [] => none
  | k :: ks =>
    match alookup r k with
    | some fv => if fv.truthy then some fv else firstTruthy r ks
    | none => firstTruthy r ks

/-- Model of Python `str()` applied to a field value: a string maps to
itself, a list of plain strings to its bracketed repr. -/
def pyStr : FieldVal → String
  | .s v => v
  | .l vs =>
    let q := String.singleton (Char.ofNat 39)
    "[" ++ String.intercalate ", " (vs.map (fun v => q ++ v ++ q)) ++ "]"

/-- The `name` field of a record when it is a string.  A record whose `name`
is a list would raise `AttributeError` at `name.lower()` in the source;
theorems that describe the skip behaviour therefore carry a `nameIsStr`
hypothesis restricting them to records the engine actually processes. -/
def recName (r : Record) : Option String :=
  match alookup r "name" with
  | some (.s v) => some v
  | _ => none

/-- True unless the record's `name` field is bound to a list. -/
def nameIsStr (r : Record) : Bool :=
  match alookup r "name" with
  | some (.l _) => false
  | _ => true

/-- Row of the `address_objects` table (`models.AddressObject`). -/
structure AddressObject where
  id : Nat
  name : String
  type : String
  value : String
  is_group : Bool
deriving DecidableEq, Repr

/-- Row of the `service_objects` table (`models.ServiceObject`). -/
structure ServiceObject where
  id : Nat
  name : String
  protocol : String
  port : String
  is_group : Bool
deriving DecidableEq, Repr

/-- Row of the `security_rules` table (`models.SecurityRule`), restricted to
the columns the reconciliation engine writes. -/
structure SecurityRule where
  id : Nat
  name : String
  from_zone : String
  to_zone : String
  action : String
deriving DecidableEq, Repr

/-- The relational inventory store: the three entity tables, the four
association tables (rows are `(parent_id, member_id)` / `(rule_id, obj_id)`
pairs), and the per-table autoincrement counters. -/
structure Store where
  addrs : List AddressObject
  svcs : List ServiceObject
  rules : List SecurityRule
  address_group_members : List (Nat × Nat)
  rule_source_map : List (Nat × Nat)
  rule_dest_map : List (Nat × Nat)
  rule_service_map : List (Nat × Nat)
  nextAddrId : Nat
  nextSvcId : Nat
  nextRuleId : Nat
deriving DecidableEq, Repr

/-- The store with every table empty and id assignment starting at 1. -/
def emptyStore : Store := ⟨[], [], [], [], [], [], [], 1, 1, 1⟩

/-- Phase 1 of `sync_all`: delete all rows of the four association tables,
then of the three entity tables.  On SQLite a table emptied this way hands
out ids from 1 again, so the counters reset; every field of the store is
derived data, hence the wiped store is `emptyStore` regardless of input. -/
def wipeStore (_ : Store) : Store := emptyStore

/-- Lower-cased-name-to-id map threaded between the phases
(`addr_map` / `svc_map` in the source). -/
abbrev NameMap := List (String × Nat)

/-- Value selection of `sync_address_objects`: first truthy candidate among
the netmask / range / fqdn / generic-value keys, default `'any'`; a
(non-empty) list contributes its first element; finally `str()`. -/
def addrValue (item : Record) : String :=
  match (firstTruthy item
      ["ip-netmask", "ip_netmask", "ip-range", "ip_range", "fqdn", "value"]).getD
      (.s "any") with
  | .l (v :: _) => v
  | .l [] => pyStr (.l [])
  | .s v => v

/-- Phase 2a, `SyncManager.sync_address_objects`: insert one non-group
`host` AddressObject per address record, skipping records with a falsy name
or a name whose lower-casing is already a key of the map built this cycle;
returns the updated store and the lower-cased name-to-id map. -/
def sync_address_objects : List Record → Store → NameMap → Store × NameMap
  | [], st, m => (st, m)
  | item :: rest, st, m =>
    match recName item with
    | some name =>
      if name = "" ∨ (alookup m (strLower name)).isSome then
        sync_address_objects rest st m
      else
        let obj : AddressObject := ⟨st.nextAddrId, name, "host", addrValue item, false⟩
        sync_address_objects rest
          { st with addrs := st.addrs ++ [obj], nextAddrId := st.nextAddrId + 1 }
          (m ++ [((strLower name), st.nextAddrId)])
    | none => sync_address_objects rest st m

/-- Phase 2b, `SyncManager.sync_service_objects`: like phase 2a for service
records (`destination-port` / `destination_port`, default `'any'`; protocol
defaults to `'tcp'` only when the key is absent). -/
def sync_service_objects : List Record → Store → NameMap → Store × NameMap
  | [], st, m => (st, m)
  | item :: rest, st, m =>
    match recName item with
    | some name =>
      if name = "" ∨ (alookup m (strLower name)).isSome then
        sync_service_objects rest st m
      else
        let port_val := (firstTruthy item ["destination-port", "destination_port"]).getD (.s "any")
        let protocol :=
          match alookup item "protocol" with
          | some fv => pyStr fv
          | none => "tcp"
        let obj : ServiceObject := ⟨st.nextSvcId, name, protocol, pyStr port_val, false⟩
        sync_service_objects rest
          { st with svcs := st.svcs ++ [obj], nextSvcId := st.nextSvcId + 1 }
          (m ++ [((strLower name), st.nextSvcId)])
    | none => sync_service_objects rest st m

/-- First loop of `SyncManager.sync_address_groups`: insert a placeholder
group AddressObject per group record (skipping falsy names and names already
present in the address map), extend the address map, and collect
`group_id_map` — the inserted group ids paired with the raw declared member
field (`static` / `static_value`, default empty list). -/
def groupInsert : List Record → NameMap → Store → Store × NameMap × List (Nat × FieldVal)
  | [], amap, st => (st, amap, [])
  | g :: rest, amap, st =>
    match recName g with
    | some name =>
      if name = "" ∨ (alookup amap (strLower name)).isSome then
        groupInsert rest amap st
      else
        let obj : AddressObject := ⟨st.nextAddrId, name, "group", "group", true⟩
        let members := (firstTruthy g ["static", "static_value"]).getD (.l [])
        let out := groupInsert rest
          (amap ++ [((strLower name), st.nextAddrId)])
          { st with addrs := st.addrs ++ [obj], nextAddrId := st.nextAddrId + 1 }
        (out.1, out.2.1, (st.nextAddrId, members) :: out.2.2)
    | none => groupInsert rest amap st

/-- A declared member field: a bare string counts as a one-element list
(`if isinstance(members, str): members = [members]`). -/
def memberList : FieldVal → List String
  | .s v => [v]
  | .l vs => vs

/-- Inner loop of the second half of `sync_address_groups`: resolve each
member name case-insensitively in the address map and insert one
`(parent_id, member_id)` row when the id is truthy and the pair is not in
the in-memory `links` set. -/
def linkMembers (gid : Nat) (amap : NameMap) :
    List String → List (Nat × Nat) → Store → Store × List (Nat × Nat)
  | [], links, st => (st, links)
  | m :: ms, links, st =>
    match alookup amap (strLower m) with
    | some mid =>
      if mid ≠ 0 ∧ (gid, mid) ∉ links then
        linkMembers gid amap ms ((gid, mid) :: links)
          { st with address_group_members := st.address_group_members ++ [(gid, mid)] }
      else linkMembers gid amap ms links st
    | none => linkMembers gid amap ms links st

/-- Second loop of `sync_address_groups`: walk `group_id_map` in insertion
order, deduplicate each member list (`set(members)`), and link, threading
the shared `links` set. -/
def linkGroups (amap : NameMap) :
    List (Nat × FieldVal) → List (Nat × Nat) → Store → Store
  | [], _, st => st
  | g :: rest, links, st =>
    let out := linkMembers g.1 amap ((memberList g.2).dedup) links st
    linkGroups amap rest out.2 out.1

/-- Phase 3, `SyncManager.sync_address_groups`: group insertion followed by
member linking; the address map is mutated in place in the source, so the
extended map is returned for phase 4. -/
def sync_address_groups (groups : List Record) (amap : NameMap) (st : Store) :
    Store × NameMap :=
  let out := groupInsert groups amap st
  (linkGroups out.2.1 out.2.2 [] out.1, out.2.1)

/-- Model of `set(r.get(key, []))` on a loosely-typed field: an absent key
gives the empty set, a string gives the set of its characters (Python
iterates a string by character), a list gives its deduplicated elements. -/
def entrySet : Option FieldVal → List String
  | none => []
  | some (.s v) => (v.toList.map (fun c => String.singleton c)).dedup
  | some (.l vs) => vs.dedup

/-- Zone extraction: `xs[0] if (isinstance(xs, list) and xs) else 'any'`. -/
def zoneFirst : FieldVal → String
  | .l (z :: _) => z
  | _ => "any"

/-- Per-field linking loop of `sync_security_rules`: resolve each entry
case-insensitively and emit one `(rule_id, obj_id)` row when the id is
truthy; there is no pair-keyed dedup set here, unlike the group phase. -/
def linkRuleEntries (rid : Nat) (m : NameMap) : List String → List (Nat × Nat)
  | [] => []
  | e :: es =>
    match alookup m (strLower e) with
    | some oid =>
      if oid ≠ 0 then (rid, oid) :: linkRuleEntries rid m es
      else linkRuleEntries rid m es
    | none => linkRuleEntries rid m es

/-- Worker of phase 4 with the explicit `processed_rules` set of
lower-cased rule names. -/
def syncRulesAux (amap smap : NameMap) :
    List Record → List String → Store → Store
  | [], _, st => st
  | r :: rest, processed, st =>
    match recName r with
    | some name =>
      if name = "" ∨ (strLower name) ∈ processed then
        syncRulesAux amap smap rest processed st
      else
        let f_z := zoneFirst ((firstTruthy r ["fromzone", "from"]).getD (.l ["any"]))
        let t_z := zoneFirst ((firstTruthy r ["tozone", "to"]).getD (.l ["any"]))
        let act :=
          match alookup r "action" with
          | some fv => pyStr fv
          | none => "allow"
        let rid := st.nextRuleId
        let rule : SecurityRule := ⟨rid, name, f_z, t_z, act⟩
        let srcRows := linkRuleEntries rid amap (entrySet (alookup r "source"))
        let dstRows := linkRuleEntries rid amap (entrySet (alookup r "destination"))
        let svcRows := linkRuleEntries rid smap (entrySet (alookup r "service"))
        syncRulesAux amap smap rest ((strLower name) :: processed)
          { st with
            rules := st.rules ++ [rule],
            nextRuleId := rid + 1,
            rule_source_map := st.rule_source_map ++ srcRows,
            rule_dest_map := st.rule_dest_map ++ dstRows,
            rule_service_map := st.rule_service_map ++ svcRows }
    | none => syncRulesAux amap smap rest processed st

/-- Phase 4, `SyncManager.sync_security_rules`. -/
def sync_security_rules (rulesL : List Record) (amap smap : NameMap) (st : Store) : Store :=
  syncRulesAux amap smap rulesL [] st

/-- The device snapshot handed to `sync_all`: the `address`,
`address-group`, `service` and `rules` keys of `fw_config`
(`fw_config.get(key, [])`). -/
structure Snapshot where
  address : List Record
  addressGroup : List Record
  service : List Record
  rules : List Record
deriving DecidableEq, Repr

/-- Injection point for an exception inside one of the four transactional
phases of `sync_all`. -/
inductive Phase where
  | p1 | p2 | p3 | p4
deriving DecidableEq, Repr

/-- Process-global state of the engine around one `sync_all` call: the
class-level busy flag `_sync_lock`, the class-level `_last_sync_time`
timestamp, and the session (`committed` database state plus `pending`
transaction-local state). -/
structure SyncState where
  lock : Bool
  lastSyncTime : Option Nat
  committed : Store
  pending : Store
deriving DecidableEq, Repr

/-- Phases 1-4 executed on the transaction-local store, with an optional
injected exception.  The code of the phases runs inside one `try`; an
exception anywhere surfaces here as `Except.error`.  Phase 5 (network
topology) only touches the `NetworkInterface` cache — outside this store —
and swallows all of its own exceptions, so it is not modelled. -/
def runPhases (snap : Snapshot) (failAt : Option Phase) (p : Store) : Except Unit Store :=
  let p1 := wipeStore p
  if failAt = some Phase.p1 then Except.error () else
  let out2a := sync_address_objects snap.address p1 []
  let out2 := sync_service_objects snap.service out2a.1 []
  if failAt = some Phase.p2 then Except.error () else
  let out3 := sync_address_groups snap.addressGroup out2a.2 out2.1
  if failAt = some Phase.p3 then Except.error () else
  let p4 := sync_security_rules snap.rules out3.2 out2.2 out3.1
  if failAt = some Phase.p4 then Except.error () else
  Except.ok p4

/-- `SyncManager.sync_all`: skip when the busy flag is set; otherwise set
the flag, run phases 1-4 in the transaction, commit and record the
completion time on success, roll back on any exception, and clear the flag
on every path that acquired it (`finally`). -/
def sync_all (snap : Snapshot) (now : Nat) (failAt : Option Phase) (st : SyncState) :
    Bool × SyncState :=
  if st.lock then (false, st)
  else
    let locked : SyncState := { st with lock := true }
    match runPhases snap failAt locked.pending with
    | .ok p =>
        (true, { locked with pending := p, committed := p, lastSyncTime := some now, lock := false })
    | .error _ =>
        (false, { locked with pending := locked.committed, lock := false })

/-- The store produced by a successful full resync: phases 2-4 run from the
wiped store. -/
def rebuildStore (snap : Snapshot) : Store :=
  let out2a := sync_address_objects snap.address emptyStore []
  let out2 := sync_service_objects snap.service out2a.1 []
  let out3 := sync_address_groups snap.addressGroup out2a.2 out2.1
  sync_security_rules snap.rules out3.2 out2.2 out3.1

/-- An inventory entity as seen by the deep resolver of
`ops_routes.resolve_object_content`: an ORM object carrying an `is_group`
flag, a `value` (addresses) or `port` (services) attribute — an attribute
the object lacks is modelled as `""`, matching `getattr(obj, attr, '')` —
and a `members` relationship. -/
inductive InvObj where
  | mk (is_group : Bool) (value : String) (port : String) (members : List InvObj)

/-- The `is_group` flag of an entity. -/
def InvObj.isGroup : InvObj → Bool
  | .mk g _ _ _ => g

mutual

/-- Recursive core of `resolve_object_content` on a non-None entity: a
non-group leaf yields its `value or port`, kept only when truthy and not
`'any'` case-insensitively; a group yields `list(set(...))` of the
concatenated member resolutions. -/
def resolveObj : InvObj → List String
  | .mk isg v p ms =>
    if isg then (resolveMembers ms).dedup
    else
      let val := if v ≠ "" then v else p
      if val ≠ "" ∧ (strLower val) ≠ "any" then [val] else []

/-- The accumulation loop over `obj.members`. -/
def resolveMembers : List InvObj → List String
  | [] => []
  | o :: os => resolveObj o ++ resolveMembers os

end

/-- `ops_routes.resolve_object_content`: a falsy (absent) entity resolves to
the empty list. -/
def resolve_object_content : Option InvObj → List String
  | none => []
  | some o => resolveObj o

mutual

/-- Modelled from the spec (§4.3 Object Resolver): the set of distinct
non-"any" technical values reachable from an entity — empty for an
`"any"`/empty leaf, the singleton of its value (or port for services) for
any other leaf, and the deduplicated union over all members for a group. -/
def resolveSpecObj : InvObj → Finset String
  | .mk isg v p ms =>
    if isg then resolveSpecMembers ms
    else
      let val := if v ≠ "" then v else p
      if val = "" ∨ (strLower val) = "any" then ∅ else {val}

/-- Union of the spec-level resolution over a member list. -/
def resolveSpecMembers : List InvObj → Finset String
  | [] => ∅
  | o :: os => resolveSpecObj o ∪ resolveSpecMembers os

end

/-- `robust_link` from `rule_routes.approve_single_rule`: given a free-text
identifier and the rule's target collection, do nothing for a falsy or
`'any'` identifier; otherwise take the first AddressObject whose name or
value matches case-insensitively (`.first()` on the filtered query, table
in row order) and append it unless it is already a member. -/
def robust_link (identifier : String) (table : List AddressObject)
    (target_list : List AddressObject) : List AddressObject :=
  if identifier = "" ∨ (strLower identifier) = "any" then target_list
  else
    match table.find? (fun o =>
        strLower o.name == strLower identifier || strLower o.value == strLower identifier) with
    | some obj => if obj ∈ target_list then target_list else target_list ++ [obj]
    | none => target_list

/-- A row of the `object_requests` workflow table, restricted to the fields
`approve_object` reads.  The source column `prefix` is called `prefixVal`
here; `None` values are modelled as `""`. -/
structure ObjectRequest where
  id : Nat
  name : String
  obj_type : String
  value : String
  prefixVal : String
  protocol : String
  status : String
deriving DecidableEq, Repr

/-- Committed application state seen by `approve_object`: the two inventory
tables it may write, the request table, and the id counter. -/
structure AppState where
  addrs : List AddressObject
  svcs : List ServiceObject
  reqs : List ObjectRequest
  nextId : Nat
deriving DecidableEq, Repr

/-- Outcome of an `approve_object` call: the JSON success answer or an
error answer with its HTTP status code. -/
inductive ApproveResult where
  | ok (msg : String)
  | err (code : Nat) (msg : String)
deriving DecidableEq, Repr

/-- Member splitting used for the group types:
`[m.strip() for m in v.split(',') if m.strip()]`. -/
def splitMembers (v : String) : List String :=
  ((splitComma v).map pyStrip).filter (fun m => m ≠ "")

/-- Status update of one request row at commit time. -/
def setStatus (reqs : List ObjectRequest) (oid : Nat) (s : String) : List ObjectRequest :=
  reqs.map (fun r => if r.id = oid then { r with status := s } else r)

/-- `object_routes.approve_object` for request `oid` (after the admin
check), with the external device's `create()` outcome abstracted by
`deviceFails`.  The local `session.add` calls made before the device call
stay pending until the final commit; a device failure triggers
`session.rollback()` which discards them, leaving the committed state
untouched.  The audit-log insert is outside the modelled state. -/
def approve_object (oid : Nat) (deviceFails : Bool) (st : AppState) :
    ApproveResult × AppState :=
  match st.reqs.find? (fun r => r.id == oid) with
  | none => (.err 404 "not found or already handled", st)
  | some req =>
    if req.status ≠ "Pending" then (.err 404 "not found or already handled", st)
    else
      let t := req.obj_type
      let n := req.name
      let v := pyStrip req.value
      if t = "service-group" ∧ splitMembers v = [] then
        (.err 400 "empty service group", st)
      else
        let pendingAddrs : List AddressObject :=
          if t = "address" then
            let val_with_mask :=
              if req.prefixVal ≠ "" ∧ req.prefixVal ≠ "0" then v ++ "/" ++ req.prefixVal
              else if v.data.contains (Char.ofNat 47) then v else v ++ "/32"
            if (st.addrs.find? (fun o => o.name == n)).isNone then
              [⟨st.nextId, n, "ip-netmask", val_with_mask, false⟩] else []
          else if t = "address-group" then
            if (st.addrs.find? (fun o => o.name == n)).isNone then
              [⟨st.nextId, n, "group", "", true⟩] else []
          else []
        let pendingSvcs : List ServiceObject :=
          if t = "service" then
            if (st.svcs.find? (fun o => o.name == n)).isNone then
              [⟨st.nextId, n, (if req.protocol ≠ "" then req.protocol else "tcp"),
                (stripSpaces v), false⟩] else []
          else if t = "service-group" then
            if (st.svcs.find? (fun o => o.name == n)).isNone then
              [⟨st.nextId, n, "", "", true⟩] else []
          else []
        let hasPanObj := t = "address" ∨ t = "address-group" ∨ t = "service" ∨ t = "service-group"
        if hasPanObj ∧ deviceFails then
          (.err 400 "firewall error", st)
        else
          (.ok "approved",
            { st with
              addrs := st.addrs ++ pendingAddrs,
              svcs := st.svcs ++ pendingSvcs,
              reqs := setStatus st.reqs oid "Approved",
              nextId := st.nextId + pendingAddrs.length + pendingSvcs.length })

/-- Modelled from the spec (§4.2 phase 2): "pick the first non-empty value
among an ordered list of candidate fields (netmask, range, FQDN, generic
value)", accepting hyphenated and snake_case spellings. -/
def specFirstNonEmpty (item : Record) : Option FieldVal :=
  (["ip-netmask", "ip_netmask", "ip-range", "ip_range", "fqdn", "value"]).findSome?
    (fun k =>
      match alookup item k with
      | some fv => if fv.truthy then some fv else none
      | none => none)

/-- Modelled from the spec: the inserted value — first non-empty candidate,
default `"any"` if none present, first element if the candidate is a
list. -/
def specAddrValue (item : Record) : String :=
  match specFirstNonEmpty item with
  | some (.l (v :: _)) => v
  | some (.l []) => pyStr (.l [])
  | some (.s v) => v
  | none => "any"

/-- Modelled from the spec: the `(name, value)` pairs phase 2 inserts, in
order — skipping records whose name is empty (or missing) or a
case-insensitive duplicate of one already inserted in this cycle. -/
def specInsertedAddrs : List Record → List String → List (String × String)
  | [], _ => []
  | item :: rest, seen =>
    match recName item with
    | some name =>
      if name = "" ∨ (strLower name) ∈ seen then specInsertedAddrs rest seen
      else (name, specAddrValue item) :: specInsertedAddrs rest ((strLower name) :: seen)
    | none => specInsertedAddrs rest seen

/-! ### Shared example inputs for the closed witness statements -/

/-- A one-address snapshot record. -/
def addrRecEx : Record := [("name", FieldVal.s "web"), ("ip-netmask", FieldVal.s "10.0.0.1/32")]

/-- A small benign snapshot. -/
def snapEx : Snapshot := ⟨[addrRecEx], [], [], []⟩

/-- Engine state with the busy flag clear and empty stores. -/
def stEx : SyncState := ⟨false, none, emptyStore, emptyStore⟩

/-- Engine state with the busy flag already set. -/
def stLockedEx : SyncState := ⟨true, none, emptyStore, emptyStore⟩

/-- A rule record naming the same source object under two spellings. -/
def ruleDupRec : Record := [("name", FieldVal.s "r1"), ("source", FieldVal.l ["Web", "WEB"])]

/-- Snapshot exhibiting the duplicate-association-row behaviour. -/
def snapDup : Snapshot := ⟨[addrRecEx], [], [], [ruleDupRec]⟩

/-! ### Helper lemmas -/

theorem runPhases_none (snap : Snapshot) (p : Store) :
    runPhases snap none p = Except.ok (rebuildStore snap) := rfl

theorem runPhases_some (snap : Snapshot) (ph : Phase) (p : Store) :
    runPhases snap (some ph) p = Except.error () := by
  cases ph <;> rfl

/-- A successful `sync_all` run from an unlocked state: the result depends
only on the snapshot (and the clock), because phase 1 wipes every derived
table. -/
theorem sync_all_success (snap : Snapshot) (now : Nat) (st : SyncState)
    (h : st.lock = false) :
    sync_all snap now none st =
      (true, ⟨false, some now, rebuildStore snap, rebuildStore snap⟩) := by
  simp only [sync_all, h, Bool.false_eq_true, if_false, runPhases_none]

/-- A failed `sync_all` run from an unlocked state: rollback restores the
pre-call committed store on both session sides and clears the flag. -/
theorem sync_all_failed (snap : Snapshot) (now : Nat) (ph : Phase) (st : SyncState)
    (h : st.lock = false) :
    sync_all snap now (some ph) st =
      (false, ⟨false, st.lastSyncTime, st.committed, st.committed⟩) := by
  simp only [sync_all, h, Bool.false_eq_true, if_false, runPhases_some]

/-! ### Claim theorems -/

/-- C1: `sync_all` always returns a boolean (it is total over its modelled
inputs, mirroring the `try/except` that stops every exception at the
boundary).  If an exception occurs during any of phases 1-4, the whole
transaction is rolled back — the committed store is exactly what it was
before the call and the session's pending state is reset to it — and the
call returns `false`.  On success it commits the rebuilt store, records the
completion timestamp, and returns `true`. -/
theorem sync_all_transactional (snap : Snapshot) (now : Nat) (st : SyncState)
    (failAt : Option Phase) (hlock : st.lock = false) :
    (∀ ph, failAt = some ph →
      (sync_all snap now failAt st).1 = false ∧
      (sync_all snap now failAt st).2.committed = st.committed ∧
      (sync_all snap now failAt st).2.pending = st.committed) ∧
    (failAt = none →
      (sync_all snap now failAt st).1 = true ∧
      (sync_all snap now failAt st).2.committed = rebuildStore snap ∧
      (sync_all snap now failAt st).2.pending = rebuildStore snap ∧
      (sync_all snap now failAt st).2.lastSyncTime = some now) := by
  constructor
  · intro ph hp
    subst hp
    rw [sync_all_failed snap now ph st hlock]
    exact ⟨rfl, rfl, rfl⟩
  · intro hn
    subst hn
    rw [sync_all_success snap now st hlock]
    exact ⟨rfl, rfl, rfl, rfl⟩

/-- Closed instance of `sync_all_transactional`: an exception in phase 4
leaves the store untouched and reports failure; the clean run reports
success and records the timestamp. -/
theorem sync_all_transactional_witness :
    ((sync_all snapEx 7 (some Phase.p4) stEx).1 = false ∧
     (sync_all snapEx 7 (some Phase.p4) stEx).2.committed = stEx.committed) ∧
    ((sync_all snapEx 7 none stEx).1 = true ∧
     (sync_all snapEx 7 none stEx).2.lastSyncTime = some 7) := by
  have h1 := sync_all_transactional snapEx 7 stEx (some Phase.p4) rfl
  have h2 := sync_all_transactional snapEx 7 stEx none rfl
  exact ⟨⟨(h1.1 Phase.p4 rfl).1, (h1.1 Phase.p4 rfl).2.1⟩, (h2.2 rfl).1, (h2.2 rfl).2.2.2⟩

/-- C2: a call that finds the busy flag set returns `false` immediately with
the whole state — in particular every inventory table — untouched; and a
call that acquired the flag clears it before returning on every exit path
(success, injected failure, or exception). -/
theorem sync_all_single_flight (snap : Snapshot) (now : Nat) (failAt : Option Phase)
    (st : SyncState) :
    (st.lock = true → sync_all snap now failAt st = (false, st)) ∧
    (st.lock = false → (sync_all snap now failAt st).2.lock = false) := by
  constructor
  · intro h
    simp [sync_all, h]
  · intro h
    cases failAt with
    | none => rw [sync_all_success snap now st h]
    | some ph => rw [sync_all_failed snap now ph st h]

/-- Closed instance of `sync_all_single_flight` at a locked and an unlocked
state. -/
theorem sync_all_single_flight_witness :
    (sync_all snapEx 0 none stLockedEx = (false, stLockedEx)) ∧
    ((sync_all snapEx 0 (some Phase.p2) stEx).2.lock = false) :=
  ⟨(sync_all_single_flight snapEx 0 none stLockedEx).1 rfl,
   (sync_all_single_flight snapEx 0 (some Phase.p2) stEx).2 rfl⟩

/-- C5: two consecutive successful `sync_all` runs over the same snapshot
leave identical entity counts for AddressObject, ServiceObject and
SecurityRule and identical association-row sets (the full wipe of phase 1
resets the tables and their id sequences, so the rebuilt rows coincide even
on the surrogate ids). -/
theorem sync_all_idempotent (snap : Snapshot) (n1 n2 : Nat) (st : SyncState)
    (h : st.lock = false) :
    (sync_all snap n1 none st).1 = true ∧
    (sync_all snap n2 none (sync_all snap n1 none st).2).1 = true ∧
    (sync_all snap n2 none (sync_all snap n1 none st).2).2.committed.addrs.length =
      (sync_all snap n1 none st).2.committed.addrs.length ∧
    (sync_all snap n2 none (sync_all snap n1 none st).2).2.committed.svcs.length =
      (sync_all snap n1 none st).2.committed.svcs.length ∧
    (sync_all snap n2 none (sync_all snap n1 none st).2).2.committed.rules.length =
      (sync_all snap n1 none st).2.committed.rules.length ∧
    (sync_all snap n2 none (sync_all snap n1 none st).2).2.committed.address_group_members =
      (sync_all snap n1 none st).2.committed.address_group_members ∧
    (sync_all snap n2 none (sync_all snap n1 none st).2).2.committed.rule_source_map =
      (sync_all snap n1 none st).2.committed.rule_source_map ∧
    (sync_all snap n2 none (sync_all snap n1 none st).2).2.committed.rule_dest_map =
      (sync_all snap n1 none st).2.committed.rule_dest_map ∧
    (sync_all snap n2 none (sync_all snap n1 none st).2).2.committed.rule_service_map =
      (sync_all snap n1 none st).2.committed.rule_service_map := by
  rw [sync_all_success snap n1 st h]
  rw [sync_all_success snap n2 ⟨false, some n1, rebuildStore snap, rebuildStore snap⟩ rfl]
  exact ⟨rfl, rfl, rfl, rfl, rfl, rfl, rfl, rfl, rfl⟩

/-- Closed instance of `sync_all_idempotent` on the example snapshot. -/
theorem sync_all_idempotent_witness :
    (sync_all snapEx 1 none stEx).1 = true ∧
    (sync_all snapEx 2 none (sync_all snapEx 1 none stEx).2).1 = true ∧
    (sync_all snapEx 2 none (sync_all snapEx 1 none stEx).2).2.committed.addrs.length =
      (sync_all snapEx 1 none stEx).2.committed.addrs.length := by
  have h := sync_all_idempotent snapEx 1 2 stEx rfl
  exact ⟨h.1, h.2.1, h.2.2.1⟩

/-! ### The deep resolver (C4) -/

/-- Leaf A of the spec's resolver test: value `"10.1.1.1"`. -/
def leafA : InvObj := .mk false "10.1.1.1" "" []

/-- Leaf B of the spec's resolver test: value `"any"`. -/
def leafB : InvObj := .mk false "any" "" []

/-- Nested group H containing leaf B. -/
def groupH : InvObj := .mk true "" "" [leafB]

/-- Group G containing leaf A and nested group H. -/
def groupG : InvObj := .mk true "" "" [leafA, groupH]

theorem dedup_toFinset {α : Type} [DecidableEq α] (l : List α) :
    l.dedup.toFinset = l.toFinset := by
  ext a
  simp [List.mem_toFinset, List.mem_dedup]

theorem resolveMembers_toFinset (ms : List InvObj)
    (h : ∀ o ∈ ms, (resolveObj o).toFinset = resolveSpecObj o) :
    (resolveMembers ms).toFinset = resolveSpecMembers ms := by
  induction ms with
  | nil => simp [resolveMembers, resolveSpecMembers]
  | cons o os ih =>
    rw [resolveMembers, resolveSpecMembers, List.toFinset_append,
      h o (by simp), ih (fun o' ho' => h o' (by simp [ho']))]

theorem resolveObj_toFinset (o : InvObj) :
    (resolveObj o).toFinset = resolveSpecObj o := by
  suffices h : ∀ (n : Nat) (o : InvObj), sizeOf o < n →
      (resolveObj o).toFinset = resolveSpecObj o from
    h (sizeOf o + 1) o (Nat.lt_succ_self _)
  intro n
  induction n with
  | zero => exact fun o h => absurd h (Nat.not_lt_zero _)
  | succ n ih =>
    intro o hlt
    match o with
    | .mk isg v p ms =>
      cases isg with
      | false =>
        rw [resolveObj, resolveSpecObj]
        simp only [Bool.false_eq_true, if_false]
        split_ifs <;> simp_all
      | true =>
        rw [resolveObj, resolveSpecObj]
        simp only [if_true]
        rw [dedup_toFinset]
        refine resolveMembers_toFinset ms (fun o' ho' => ih o' ?_)
        have h1 : sizeOf o' < sizeOf ms := List.sizeOf_lt_of_mem ho'
        have h2 : sizeOf ms < sizeOf (InvObj.mk true v p ms) := by
          simp only [InvObj.mk.sizeOf_spec]
          omega
        omega

theorem resolveObj_nodup (o : InvObj) : (resolveObj o).Nodup := by
  match o with
  | .mk isg v p ms =>
    cases isg with
    | false =>
      rw [resolveObj]
      simp only [Bool.false_eq_true, if_false]
      split_ifs <;> simp
    | true =>
      rw [resolveObj]
      simp only [if_true]
      exact List.nodup_dedup _

/-- C4: `resolve_object_content` returns a duplicate-free list of the
non-"any" technical values reachable from its argument.  An absent entity
resolves to nothing; on every entity the returned set coincides with the
spec-level recursive resolution (`resolveSpecObj`: empty for an
`"any"`/empty leaf, singleton of `value`-or-`port` for other leaves,
deduplicated union over members for groups); and on the spec's concrete
example — group G containing leaf A(10.1.1.1) and nested group H containing
leaf B("any") — it returns exactly `{"10.1.1.1"}`. -/
theorem resolve_content_correct :
    resolve_object_content none = [] ∧
    (∀ o : InvObj, (resolve_object_content (some o)).toFinset = resolveSpecObj o) ∧
    (∀ o : InvObj, (resolve_object_content (some o)).Nodup) ∧
    resolve_object_content (some groupG) = ["10.1.1.1"] := by
  refine ⟨rfl, fun o => resolveObj_toFinset o, fun o => resolveObj_nodup o, ?_⟩
  show resolveObj groupG = ["10.1.1.1"]
  decide

/-- The existing inventory row of the case-insensitive linking example. -/
def webServerObj : AddressObject := ⟨1, "web-server", "host", "1.2.3.4", false⟩

/-- C8: `robust_link` does nothing for an empty or (case-insensitively)
`"any"` identifier; otherwise it appends at most one object — an element of
the table whose name or value matches the identifier case-insensitively —
and only when it is not already a member, so repeating the link is
idempotent; and the identifier `"Web-Server"` links to the existing
AddressObject named `"web-server"`. -/
theorem robust_link_correct :
    (∀ identifier table target, (identifier = "" ∨ strLower identifier = "any") →
      robust_link identifier table target = target) ∧
    (∀ identifier table target,
      robust_link identifier table target = target ∨
      ∃ obj, obj ∈ table ∧
        (strLower obj.name = strLower identifier ∨ strLower obj.value = strLower identifier) ∧
        obj ∉ target ∧ robust_link identifier table target = target ++ [obj]) ∧
    (∀ identifier table target,
      robust_link identifier table (robust_link identifier table target) =
        robust_link identifier table target) ∧
    robust_link "Web-Server" [webServerObj] [] = [webServerObj] := by
  have hbase : ∀ identifier table target, (identifier = "" ∨ strLower identifier = "any") →
      robust_link identifier table target = target := by
    intro identifier table target h
    rw [robust_link, if_pos h]
  have hshape : ∀ (identifier : String) (table target : List AddressObject),
      robust_link identifier table target = target ∨
      ∃ obj, table.find? (fun o =>
          strLower o.name == strLower identifier || strLower o.value == strLower identifier)
          = some obj ∧ obj ∈ table ∧
        (strLower obj.name = strLower identifier ∨ strLower obj.value = strLower identifier) ∧
        obj ∉ target ∧ robust_link identifier table target = target ++ [obj] := by
    intro identifier table target
    by_cases h : identifier = "" ∨ strLower identifier = "any"
    · exact Or.inl (hbase identifier table target h)
    · rw [robust_link, if_neg h]
      cases hf : table.find? (fun o =>
          strLower o.name == strLower identifier || strLower o.value == strLower identifier) with
      | none => exact Or.inl rfl
      | some obj =>
        simp only []
        have hmem := List.mem_of_find?_eq_some hf
        have hp := List.find?_some hf
        rw [Bool.or_eq_true, beq_iff_eq, beq_iff_eq] at hp
        by_cases ht : obj ∈ target
        · rw [if_pos ht]; exact Or.inl rfl
        · rw [if_neg ht]; exact Or.inr ⟨obj, rfl, hmem, hp, ht, rfl⟩
  refine ⟨hbase, ?_, ?_, by decide⟩
  · intro identifier table target
    rcases hshape identifier table target with heq | ⟨obj, _, hmem, hp, ht, heq⟩
    · exact Or.inl heq
    · exact Or.inr ⟨obj, hmem, hp, ht, heq⟩
  · intro identifier table target
    rcases hshape identifier table target with heq | ⟨obj, hf, _, _, _, heq⟩
    · rw [heq]
      exact heq
    · rw [heq]
      by_cases hany : identifier = "" ∨ strLower identifier = "any"
      · exact hbase _ _ _ hany
      · rw [robust_link, if_neg hany, hf]
        simp only []
        rw [if_pos (by simp : obj ∈ target ++ [obj])]

/-- Closed instance of `robust_link_correct`: an `"any"` identifier leaves
the collection untouched. -/
theorem robust_link_correct_witness :
    robust_link "any" [webServerObj] [] = [] :=
  robust_link_correct.1 "any" [webServerObj] [] (Or.inr (by decide))

/-- The pending address request of the device-failure example. -/
def reqEx9 : ObjectRequest := ⟨1, "srv1", "address", "10.0.0.5", "", "tcp", "Pending"⟩

/-- Application state holding only the pending request `reqEx9`. -/
def stEx9 : AppState := ⟨[], [], [reqEx9], 1⟩

/-- C9: when the external device's `create()` call fails during an
individual object approval, the call returns an error and the committed
application state — AddressObject and ServiceObject tables and the request
table (so the request is still `Pending`) — is exactly what it was before
the call: the rollback discards the not-yet-committed local inserts. -/
theorem approve_object_device_failure (st : AppState) (oid : Nat) (req : ObjectRequest)
    (hfind : st.reqs.find? (fun r => r.id == oid) = some req)
    (hstatus : req.status = "Pending")
    (htype : req.obj_type ∈ ["address", "address-group", "service", "service-group"]) :
    (approve_object oid true st).2 = st ∧
    ∃ c msg, (approve_object oid true st).1 = ApproveResult.err c msg := by
  have hpan : req.obj_type = "address" ∨ req.obj_type = "address-group" ∨
      req.obj_type = "service" ∨ req.obj_type = "service-group" := by
    simpa using htype
  rw [approve_object, hfind]
  simp only [hstatus]
  rw [if_neg (by simp)]
  by_cases hsg : req.obj_type = "service-group" ∧ splitMembers (pyStrip req.value) = []
  · rw [if_pos hsg]
    exact ⟨rfl, 400, "empty service group", rfl⟩
  · rw [if_neg hsg, if_pos ⟨hpan, trivial⟩]
    exact ⟨rfl, 400, "firewall error", rfl⟩

/-- Closed instance of `approve_object_device_failure` on a concrete pending
address request. -/
theorem approve_object_device_failure_witness :
    (approve_object 1 true stEx9).2 = stEx9 ∧
    ∃ c msg, (approve_object 1 true stEx9).1 = ApproveResult.err c msg :=
  approve_object_device_failure stEx9 1 reqEx9 (by decide) rfl (by decide)

/-- C10: every AddressObject inserted by phase 2 (`sync_address_objects`)
has `type = "host"` and `is_group = false`, whatever snapshot field its
value came from: any row of the output table is either a pre-existing row
or a host/non-group row. -/
theorem phase2_objects_host_nongroup :
    ∀ (l : List Record) (st : Store) (m : NameMap) (o : AddressObject),
      o ∈ (sync_address_objects l st m).1.addrs →
      o ∈ st.addrs ∨ (o.type = "host" ∧ o.is_group = false) := by
  intro l
  induction l with
  | nil => exact fun st m o h => Or.inl h
  | cons item rest ih =>
    intro st m o h
    rw [sync_address_objects] at h
    cases hn : recName item with
    | none =>
      rw [hn] at h
      simp only [] at h
      exact ih st m o h
    | some name =>
      rw [hn] at h
      simp only [] at h
      by_cases hc : name = "" ∨ (alookup m (strLower name)).isSome
      · rw [if_pos hc] at h
        exact ih st m o h
      · rw [if_neg hc] at h
        rcases ih _ _ o h with hmem | hgood
        · rcases List.mem_append.mp hmem with h1 | h1
          · exact Or.inl h1
          · rw [List.mem_singleton] at h1
            subst h1
            exact Or.inr ⟨rfl, rfl⟩
        · exact Or.inr hgood

/-- Closed instance of `phase2_objects_host_nongroup` on the example
snapshot record. -/
theorem phase2_objects_host_nongroup_witness :
    ((⟨1, "web", "host", "10.0.0.1/32", false⟩ : AddressObject) ∈
      (sync_address_objects [addrRecEx] emptyStore []).1.addrs) ∧
    ((⟨1, "web", "host", "10.0.0.1/32", false⟩ : AddressObject) ∈ emptyStore.addrs ∨
      ((⟨1, "web", "host", "10.0.0.1/32", false⟩ : AddressObject).type = "host" ∧
       (⟨1, "web", "host", "10.0.0.1/32", false⟩ : AddressObject).is_group = false)) :=
  ⟨by decide, phase2_objects_host_nongroup [addrRecEx] emptyStore [] _ (by decide)⟩

/-! ### Phase-2 value selection (C6) -/

theorem alookup_append_isSome {β : Type} (m1 m2 : List (String × β)) (k : String) :
    (alookup (m1 ++ m2) k).isSome = ((alookup m1 k).isSome || (alookup m2 k).isSome) := by
  induction m1 with
  | nil => simp [alookup]
  | cons p rest ih =>
    obtain ⟨k', v⟩ := p
    by_cases h : k' = k
    · simp [alookup, h]
    · simp [alookup, h, ih]

theorem firstTruthy_eq_findSome (r : Record) (ks : List String) :
    firstTruthy r ks = ks.findSome? (fun k =>
      match alookup r k with
      | some fv => if fv.truthy then some fv else none
      | none => none) := by
  induction ks with
  | nil => rfl
  | cons k ks ih =>
    rw [firstTruthy, List.findSome?_cons]
    cases alookup r k with
    | none => simpa using ih
    | some fv =>
      by_cases h : fv.truthy
      · simp [h]
      · simpa [h] using ih

theorem addrValue_eq_spec (item : Record) : addrValue item = specAddrValue item := by
  rw [addrValue, specAddrValue, specFirstNonEmpty, ← firstTruthy_eq_findSome]
  cases firstTruthy item ["ip-netmask", "ip_netmask", "ip-range", "ip_range", "fqdn", "value"] with
  | none => rfl
  | some fv =>
    cases fv with
    | s v => rfl
    | l vs => cases vs <;> rfl

theorem sync_address_objects_names (l : List Record) :
    ∀ (st : Store) (m : NameMap) (seen : List String),
      (∀ k, k ∈ seen ↔ (alookup m k).isSome = true) →
      ((sync_address_objects l st m).1.addrs).map (fun o => (o.name, o.value)) =
        st.addrs.map (fun o => (o.name, o.value)) ++ specInsertedAddrs l seen := by
  induction l with
  | nil =>
    intro st m seen _
    simp [sync_address_objects, specInsertedAddrs]
  | cons item rest ih =>
    intro st m seen hinv
    rw [sync_address_objects, specInsertedAddrs]
    cases hn : recName item with
    | none =>
      simp only []
      exact ih st m seen hinv
    | some name =>
      simp only []
      by_cases hc : name = "" ∨ (alookup m (strLower name)).isSome
      · rw [if_pos hc, if_pos (by
          rcases hc with h | h
          · exact Or.inl h
          · exact Or.inr ((hinv _).mpr h))]
        exact ih st m seen hinv
      · rw [if_neg hc, if_neg (by
          intro h
          rcases h with h | h
          · exact hc (Or.inl h)
          · exact hc (Or.inr ((hinv _).mp h)))]
        rw [ih _ _ ((strLower name) :: seen) (by
          intro k
          rw [List.mem_cons, alookup_append_isSome, Bool.or_eq_true, ← hinv k]
          constructor
          · rintro (h | h)
            · subst h
              exact Or.inr (by simp [alookup])
            · exact Or.inl h
          · rintro (h | h)
            · exact Or.inr h
            · simp only [alookup] at h
              by_cases he : strLower name = k
              · exact Or.inl he.symm
              · rw [if_neg he] at h
                simp at h)]
        rw [addrValue_eq_spec]
        simp

/-- C6: phase 2 inserts, record for record, exactly the `(name, value)`
pairs described by the spec: the value is the first non-empty candidate
among the netmask / range / FQDN / generic-value fields (both hyphenated
and snake_case spellings), `"any"` when none is present, and the first
element when the candidate is a list; records whose name is missing or
empty, or a case-insensitive duplicate of a name already inserted this
cycle, are skipped entirely.  The `nameIsStr` hypothesis restricts the
statement to records whose `name` is not a list — on those the source
raises (aborting the cycle) instead of skipping. -/
theorem phase2_value_selection (l : List Record) (st : Store)
    (_hwf : ∀ r ∈ l, nameIsStr r = true) :
    ((sync_address_objects l st []).1.addrs).map (fun o => (o.name, o.value)) =
      st.addrs.map (fun o => (o.name, o.value)) ++ specInsertedAddrs l [] :=
  sync_address_objects_names l st [] [] (by simp [alookup])

/-- An address record carrying only an `ip-range` field. -/
def recRange : Record := [("name", FieldVal.s "r-obj"), ("ip-range", FieldVal.s "10.0.0.10-10.0.0.20")]

/-- An address record with none of the recognized value fields. -/
def recBare : Record := [("name", FieldVal.s "bare")]

/-- Closed instance of `phase2_value_selection`: the `ip-range`-only record
is inserted with the range as value and the bare record with `"any"`. -/
theorem phase2_value_selection_witness :
    (∀ r ∈ [recRange, recBare], nameIsStr r = true) ∧
    ((sync_address_objects [recRange, recBare] emptyStore []).1.addrs).map
        (fun o => (o.name, o.value)) =
      [("r-obj", "10.0.0.10-10.0.0.20"), ("bare", "any")] :=
  ⟨by decide, by
    rw [phase2_value_selection [recRange, recBare] emptyStore (by decide)]
    decide⟩

/-! ### Association-row infrastructure (C3, C7) -/

theorem alookup_mem {β : Type} :
    ∀ (m : List (String × β)) (k : String) (v : β), alookup m k = some v → (k, v) ∈ m := by
  intro m
  induction m with
  | nil => intro k v h; cases h
  | cons p rest ih =>
    intro k v h
    obtain ⟨k', v'⟩ := p
    rw [alookup] at h
    by_cases he : k' = k
    · rw [if_pos he] at h
      cases h
      subst he
      exact List.mem_cons_self _ _
    · rw [if_neg he] at h
      exact List.mem_cons_of_mem _ (ih k v h)

theorem map_snd_inj (m : List (String × Nat)) (hnd : (m.map Prod.snd).Nodup) :
    ∀ k1 k2 v, (k1, v) ∈ m → (k2, v) ∈ m → k1 = k2 := by
  induction m with
  | nil => simp
  | cons p rest ih =>
    intro k1 k2 v h1 h2
    rw [List.map_cons, List.nodup_cons] at hnd
    rcases List.mem_cons.mp h1 with h1 | h1 <;> rcases List.mem_cons.mp h2 with h2 | h2
    · exact congrArg Prod.fst (h1.trans h2.symm)
    · exfalso
      apply hnd.1
      have hv : p.2 = v := by rw [← h1]
      rw [hv]
      exact List.mem_map_of_mem Prod.snd h2
    · exfalso
      apply hnd.1
      have hv : p.2 = v := by rw [← h2]
      rw [hv]
      exact List.mem_map_of_mem Prod.snd h1
    · exact ih hnd.2 k1 k2 v h1 h2

theorem alookup_inj (m : NameMap) (hnd : (m.map Prod.snd).Nodup) (k1 k2 : String) (v : Nat)
    (h1 : alookup m k1 = some v) (h2 : alookup m k2 = some v) : k1 = k2 :=
  map_snd_inj m hnd k1 k2 v (alookup_mem m k1 v h1) (alookup_mem m k2 v h2)

/-- Well-formedness of a name-to-id map relative to the table's id counter:
ids are pairwise distinct and below the counter. -/
def MapOk (m : NameMap) (b : Nat) : Prop :=
  (m.map Prod.snd).Nodup ∧ ∀ p ∈ m, p.2 < b

theorem MapOk.nil (b : Nat) : MapOk [] b := ⟨List.nodup_nil, by simp⟩

theorem MapOk.extendVal (m : NameMap) (b : Nat) (k : String) (h : MapOk m b) :
    MapOk (m ++ [(k, b)]) (b + 1) := by
  obtain ⟨h1, h2⟩ := h
  constructor
  · rw [List.map_append, List.nodup_append]
    refine ⟨h1, by simp, ?_⟩
    intro a ha
    simp only [List.map_cons, List.map_nil, List.mem_singleton]
    intro hb
    subst hb
    obtain ⟨p, hp, hpa⟩ := List.mem_map.mp ha
    exact absurd (hpa ▸ h2 p hp) (lt_irrefl a)
  · intro p hp
    rcases List.mem_append.mp hp with hp | hp
    · exact Nat.lt_succ_of_lt (h2 p hp)
    · rw [List.mem_singleton] at hp
      subst hp
      exact Nat.lt_succ_self b

theorem sync_address_objects_mapOk (l : List Record) :
    ∀ (st : Store) (m : NameMap), MapOk m st.nextAddrId →
      MapOk (sync_address_objects l st m).2 (sync_address_objects l st m).1.nextAddrId := by
  induction l with
  | nil => exact fun st m h => h
  | cons item rest ih =>
    intro st m h
    rw [sync_address_objects]
    cases recName item with
    | none => exact ih st m h
    | some name =>
      simp only []
      by_cases hc : name = "" ∨ (alookup m (strLower name)).isSome
      · rw [if_pos hc]
        exact ih st m h
      · rw [if_neg hc]
        exact ih _ _ (MapOk.extendVal m st.nextAddrId (strLower name) h)

theorem sync_service_objects_mapOk (l : List Record) :
    ∀ (st : Store) (m : NameMap), MapOk m st.nextSvcId →
      MapOk (sync_service_objects l st m).2 (sync_service_objects l st m).1.nextSvcId := by
  induction l with
  | nil => exact fun st m h => h
  | cons item rest ih =>
    intro st m h
    rw [sync_service_objects]
    cases recName item with
    | none => exact ih st m h
    | some name =>
      simp only []
      by_cases hc : name = "" ∨ (alookup m (strLower name)).isSome
      · rw [if_pos hc]
        exact ih st m h
      · rw [if_neg hc]
        exact ih _ _ (MapOk.extendVal m st.nextSvcId (strLower name) h)

theorem groupInsert_mapOk (l : List Record) :
    ∀ (amap : NameMap) (st : Store), MapOk amap st.nextAddrId →
      MapOk (groupInsert l amap st).2.1 (groupInsert l amap st).1.nextAddrId := by
  induction l with
  | nil => exact fun amap st h => h
  | cons g rest ih =>
    intro amap st h
    rw [groupInsert]
    cases recName g with
    | none => exact ih amap st h
    | some name =>
      simp only []
      by_cases hc : name = "" ∨ (alookup amap (strLower name)).isSome
      · rw [if_pos hc]
        exact ih amap st h
      · rw [if_neg hc]
        exact ih _ _ (MapOk.extendVal amap st.nextAddrId (strLower name) h)

theorem sync_address_objects_frame (l : List Record) :
    ∀ (st : Store) (m : NameMap),
      (sync_address_objects l st m).1.svcs = st.svcs ∧
      (sync_address_objects l st m).1.rules = st.rules ∧
      (sync_address_objects l st m).1.address_group_members = st.address_group_members ∧
      (sync_address_objects l st m).1.rule_source_map = st.rule_source_map ∧
      (sync_address_objects l st m).1.rule_dest_map = st.rule_dest_map ∧
      (sync_address_objects l st m).1.rule_service_map = st.rule_service_map ∧
      (sync_address_objects l st m).1.nextSvcId = st.nextSvcId ∧
      (sync_address_objects l st m).1.nextRuleId = st.nextRuleId := by
  induction l with
  | nil => exact fun st m => ⟨rfl, rfl, rfl, rfl, rfl, rfl, rfl, rfl⟩
  | cons item rest ih =>
    intro st m
    rw [sync_address_objects]
    cases recName item with
    | none => exact ih st m
    | some name =>
      simp only []
      by_cases hc : name = "" ∨ (alookup m (strLower name)).isSome
      · rw [if_pos hc]
        exact ih st m
      · rw [if_neg hc]
        exact ih _ _

theorem sync_service_objects_frame (l : List Record) :
    ∀ (st : Store) (m : NameMap),
      (sync_service_objects l st m).1.addrs = st.addrs ∧
      (sync_service_objects l st m).1.rules = st.rules ∧
      (sync_service_objects l st m).1.address_group_members = st.address_group_members ∧
      (sync_service_objects l st m).1.rule_source_map = st.rule_source_map ∧
      (sync_service_objects l st m).1.rule_dest_map = st.rule_dest_map ∧
      (sync_service_objects l st m).1.rule_service_map = st.rule_service_map ∧
      (sync_service_objects l st m).1.nextAddrId = st.nextAddrId ∧
      (sync_service_objects l st m).1.nextRuleId = st.nextRuleId := by
  induction l with
  | nil => exact fun st m => ⟨rfl, rfl, rfl, rfl, rfl, rfl, rfl, rfl⟩
  | cons item rest ih =>
    intro st m
    rw [sync_service_objects]
    cases recName item with
    | none => exact ih st m
    | some name =>
      simp only []
      by_cases hc : name = "" ∨ (alookup m (strLower name)).isSome
      · rw [if_pos hc]
        exact ih st m
      · rw [if_neg hc]
        exact ih _ _

theorem groupInsert_frame (l : List Record) :
    ∀ (amap : NameMap) (st : Store),
      (groupInsert l amap st).1.svcs = st.svcs ∧
      (groupInsert l amap st).1.rules = st.rules ∧
      (groupInsert l amap st).1.address_group_members = st.address_group_members ∧
      (groupInsert l amap st).1.rule_source_map = st.rule_source_map ∧
      (groupInsert l amap st).1.rule_dest_map = st.rule_dest_map ∧
      (groupInsert l amap st).1.rule_service_map = st.rule_service_map ∧
      (groupInsert l amap st).1.nextSvcId = st.nextSvcId ∧
      (groupInsert l amap st).1.nextRuleId = st.nextRuleId := by
  induction l with
  | nil => exact fun amap st => ⟨rfl, rfl, rfl, rfl, rfl, rfl, rfl, rfl⟩
  | cons g rest ih =>
    intro amap st
    rw [groupInsert]
    cases recName g with
    | none => exact ih amap st
    | some name =>
      simp only []
      by_cases hc : name = "" ∨ (alookup amap (strLower name)).isSome
      · rw [if_pos hc]
        exact ih amap st
      · rw [if_neg hc]
        exact ih _ _

theorem linkMembers_frame (gid : Nat) (amap : NameMap) :
    ∀ (ms : List String) (links : List (Nat × Nat)) (st : Store),
      (linkMembers gid amap ms links st).1.addrs = st.addrs ∧
      (linkMembers gid amap ms links st).1.svcs = st.svcs ∧
      (linkMembers gid amap ms links st).1.rules = st.rules ∧
      (linkMembers gid amap ms links st).1.rule_source_map = st.rule_source_map ∧
      (linkMembers gid amap ms links st).1.rule_dest_map = st.rule_dest_map ∧
      (linkMembers gid amap ms links st).1.rule_service_map = st.rule_service_map ∧
      (linkMembers gid amap ms links st).1.nextAddrId = st.nextAddrId ∧
      (linkMembers gid amap ms links st).1.nextSvcId = st.nextSvcId ∧
      (linkMembers gid amap ms links st).1.nextRuleId = st.nextRuleId := by
  intro ms
  induction ms with
  | nil => exact fun links st => ⟨rfl, rfl, rfl, rfl, rfl, rfl, rfl, rfl, rfl⟩
  | cons m rest ih =>
    intro links st
    rw [linkMembers]
    cases alookup amap (strLower m) with
    | none => exact ih links st
    | some mid =>
      simp only []
      by_cases hc : mid ≠ 0 ∧ (gid, mid) ∉ links
      · rw [if_pos hc]
        exact ih _ _
      · rw [if_neg hc]
        exact ih links st

theorem linkGroups_frame (amap : NameMap) :
    ∀ (gmap : List (Nat × FieldVal)) (links : List (Nat × Nat)) (st : Store),
      (linkGroups amap gmap links st).addrs = st.addrs ∧
      (linkGroups amap gmap links st).svcs = st.svcs ∧
      (linkGroups amap gmap links st).rules = st.rules ∧
      (linkGroups amap gmap links st).rule_source_map = st.rule_source_map ∧
      (linkGroups amap gmap links st).rule_dest_map = st.rule_dest_map ∧
      (linkGroups amap gmap links st).rule_service_map = st.rule_service_map ∧
      (linkGroups amap gmap links st).nextAddrId = st.nextAddrId ∧
      (linkGroups amap gmap links st).nextSvcId = st.nextSvcId ∧
      (linkGroups amap gmap links st).nextRuleId = st.nextRuleId := by
  intro gmap
  induction gmap with
  | nil => exact fun links st => ⟨rfl, rfl, rfl, rfl, rfl, rfl, rfl, rfl, rfl⟩
  | cons g rest ih =>
    intro links st
    rw [linkGroups]
    have hm := linkMembers_frame g.1 amap ((memberList g.2).dedup) links st
    have hr := ih (linkMembers g.1 amap ((memberList g.2).dedup) links st).2
      (linkMembers g.1 amap ((memberList g.2).dedup) links st).1
    exact ⟨hr.1.trans hm.1, hr.2.1.trans hm.2.1, hr.2.2.1.trans hm.2.2.1,
      hr.2.2.2.1.trans hm.2.2.2.1, hr.2.2.2.2.1.trans hm.2.2.2.2.1,
      hr.2.2.2.2.2.1.trans hm.2.2.2.2.2.1, hr.2.2.2.2.2.2.1.trans hm.2.2.2.2.2.2.1,
      hr.2.2.2.2.2.2.2.1.trans hm.2.2.2.2.2.2.2.1, hr.2.2.2.2.2.2.2.2.trans hm.2.2.2.2.2.2.2.2⟩

theorem syncRulesAux_frame (amap smap : NameMap) :
    ∀ (l : List Record) (processed : List String) (st : Store),
      (syncRulesAux amap smap l processed st).addrs = st.addrs ∧
      (syncRulesAux amap smap l processed st).svcs = st.svcs ∧
      (syncRulesAux amap smap l processed st).address_group_members =
        st.address_group_members ∧
      (syncRulesAux amap smap l processed st).nextAddrId = st.nextAddrId ∧
      (syncRulesAux amap smap l processed st).nextSvcId = st.nextSvcId := by
  intro l
  induction l with
  | nil => exact fun processed st => ⟨rfl, rfl, rfl, rfl, rfl⟩
  | cons r rest ih =>
    intro processed st
    rw [syncRulesAux]
    cases recName r with
    | none => exact ih processed st
    | some name =>
      simp only []
      by_cases hc : name = "" ∨ (strLower name) ∈ processed
      · rw [if_pos hc]
        exact ih processed st
      · rw [if_neg hc]
        exact ih _ _

theorem linkMembers_rows_mono (gid : Nat) (amap : NameMap) :
    ∀ (ms : List String) (links : List (Nat × Nat)) (st : Store),
      ∀ p ∈ st.address_group_members,
        p ∈ (linkMembers gid amap ms links st).1.address_group_members := by
  intro ms
  induction ms with
  | nil => exact fun links st p hp => hp
  | cons m rest ih =>
    intro links st p hp
    rw [linkMembers]
    cases alookup amap (strLower m) with
    | none => exact ih links st p hp
    | some mid =>
      simp only []
      by_cases hc : mid ≠ 0 ∧ (gid, mid) ∉ links
      · rw [if_pos hc]
        exact ih _ _ p (List.mem_append_left _ hp)
      · rw [if_neg hc]
        exact ih links st p hp

theorem linkMembers_covers (gid : Nat) (amap : NameMap) :
    ∀ (ms : List String) (links : List (Nat × Nat)) (st : Store),
      (∀ p ∈ links, p ∈ st.address_group_members) →
      ∀ e ∈ ms, ∀ mid, alookup amap (strLower e) = some mid → mid ≠ 0 →
        (gid, mid) ∈ (linkMembers gid amap ms links st).1.address_group_members := by
  intro ms
  induction ms with
  | nil => exact fun links st _ e he => absurd he (List.not_mem_nil e)
  | cons m rest ih =>
    intro links st hl e he mid hlook hmid
    rw [linkMembers]
    rcases List.mem_cons.mp he with he | he
    · subst he
      rw [hlook]
      simp only []
      by_cases hc : mid ≠ 0 ∧ (gid, mid) ∉ links
      · rw [if_pos hc]
        exact linkMembers_rows_mono gid amap rest _ _ (gid, mid)
          (List.mem_append_right _ (List.mem_singleton.mpr rfl))
      · rw [if_neg hc]
        have hin : (gid, mid) ∈ links := by
          by_contra hnin
          exact hc ⟨hmid, hnin⟩
        exact linkMembers_rows_mono gid amap rest links st (gid, mid) (hl _ hin)
    · cases hfind : alookup amap (strLower m) with
      | none => exact ih links st hl e he mid hlook hmid
      | some mid' =>
        simp only []
        by_cases hc : mid' ≠ 0 ∧ (gid, mid') ∉ links
        · rw [if_pos hc]
          refine ih _ _ ?_ e he mid hlook hmid
          intro p hp
          rcases List.mem_cons.mp hp with hp | hp
          · exact List.mem_append_right _ (by rw [hp]; exact List.mem_singleton.mpr rfl)
          · exact List.mem_append_left _ (hl p hp)
        · rw [if_neg hc]
          exact ih links st hl e he mid hlook hmid

theorem linkMembers_sound (gid : Nat) (amap : NameMap) :
    ∀ (ms : List String) (links : List (Nat × Nat)) (st : Store),
      ∀ p ∈ (linkMembers gid amap ms links st).1.address_group_members,
        p ∈ st.address_group_members ∨
          ∃ e ∈ ms, alookup amap (strLower e) = some p.2 ∧ p.1 = gid := by
  intro ms
  induction ms with
  | nil => exact fun links st p hp => Or.inl hp
  | cons m rest ih =>
    intro links st p hp
    rw [linkMembers] at hp
    cases hfind : alookup amap (strLower m) with
    | none =>
      rw [hfind] at hp
      rcases ih links st p hp with h | ⟨e, he, hl, hg⟩
      · exact Or.inl h
      · exact Or.inr ⟨e, List.mem_cons_of_mem _ he, hl, hg⟩
    | some mid =>
      rw [hfind] at hp
      simp only [] at hp
      by_cases hc : mid ≠ 0 ∧ (gid, mid) ∉ links
      · rw [if_pos hc] at hp
        rcases ih _ _ p hp with h | ⟨e, he, hl, hg⟩
        · rcases List.mem_append.mp h with h | h
          · exact Or.inl h
          · rw [List.mem_singleton] at h
            subst h
            exact Or.inr ⟨m, List.mem_cons_self _ _, hfind, rfl⟩
        · exact Or.inr ⟨e, List.mem_cons_of_mem _ he, hl, hg⟩
      · rw [if_neg hc] at hp
        rcases ih links st p hp with h | ⟨e, he, hl, hg⟩
        · exact Or.inl h
        · exact Or.inr ⟨e, List.mem_cons_of_mem _ he, hl, hg⟩

theorem linkMembers_nodup_inv (gid : Nat) (amap : NameMap) :
    ∀ (ms : List String) (links : List (Nat × Nat)) (st : Store),
      (∀ p ∈ st.address_group_members, p ∈ links) →
      st.address_group_members.Nodup →
      (∀ p ∈ (linkMembers gid amap ms links st).1.address_group_members,
        p ∈ (linkMembers gid amap ms links st).2) ∧
      (linkMembers gid amap ms links st).1.address_group_members.Nodup := by
  intro ms
  induction ms with
  | nil => exact fun links st hsub hnd => ⟨hsub, hnd⟩
  | cons m rest ih =>
    intro links st hsub hnd
    rw [linkMembers]
    cases alookup amap (strLower m) with
    | none => exact ih links st hsub hnd
    | some mid =>
      simp only []
      by_cases hc : mid ≠ 0 ∧ (gid, mid) ∉ links
      · rw [if_pos hc]
        refine ih _ _ ?_ ?_
        · intro p hp
          rcases List.mem_append.mp hp with hp | hp
          · exact List.mem_cons_of_mem _ (hsub p hp)
          · rw [List.mem_singleton] at hp
            subst hp
            exact List.mem_cons_self _ _
        · rw [List.nodup_append]
          refine ⟨hnd, List.nodup_singleton _, ?_⟩
          intro p hp
          rw [List.mem_singleton]
          intro hpe
          subst hpe
          exact hc.2 (hsub _ hp)
      · rw [if_neg hc]
        exact ih links st hsub hnd

theorem linkGroups_nodup (amap : NameMap) :
    ∀ (gmap : List (Nat × FieldVal)) (links : List (Nat × Nat)) (st : Store),
      (∀ p ∈ st.address_group_members, p ∈ links) →
      st.address_group_members.Nodup →
      (linkGroups amap gmap links st).address_group_members.Nodup := by
  intro gmap
  induction gmap with
  | nil => exact fun links st _ hnd => hnd
  | cons g rest ih =>
    intro links st hsub hnd
    rw [linkGroups]
    have h := linkMembers_nodup_inv g.1 amap ((memberList g.2).dedup) links st hsub hnd
    exact ih _ _ h.1 h.2

theorem linkRuleEntries_mem (rid : Nat) (m : NameMap) :
    ∀ (es : List String) (p : Nat × Nat), p ∈ linkRuleEntries rid m es →
      p.1 = rid ∧ ∃ e ∈ es, alookup m (strLower e) = some p.2 := by
  intro es
  induction es with
  | nil => exact fun p hp => absurd hp (List.not_mem_nil p)
  | cons e rest ih =>
    intro p hp
    rw [linkRuleEntries] at hp
    cases hfind : alookup m (strLower e) with
    | none =>
      rw [hfind] at hp
      obtain ⟨h1, e', he', hl⟩ := ih p hp
      exact ⟨h1, e', List.mem_cons_of_mem _ he', hl⟩
    | some oid =>
      rw [hfind] at hp
      simp only [] at hp
      by_cases hz : oid ≠ 0
      · rw [if_pos hz] at hp
        rcases List.mem_cons.mp hp with hp | hp
        · subst hp
          exact ⟨rfl, e, List.mem_cons_self _ _, hfind⟩
        · obtain ⟨h1, e', he', hl⟩ := ih p hp
          exact ⟨h1, e', List.mem_cons_of_mem _ he', hl⟩
      · rw [if_neg hz] at hp
        obtain ⟨h1, e', he', hl⟩ := ih p hp
        exact ⟨h1, e', List.mem_cons_of_mem _ he', hl⟩

theorem linkRuleEntries_nodup (rid : Nat) (m : NameMap)
    (hval : (m.map Prod.snd).Nodup) :
    ∀ (es : List String), ((es.map strLower).Nodup) →
      (linkRuleEntries rid m es).Nodup := by
  intro es
  induction es with
  | nil => exact fun _ => List.nodup_nil
  | cons e rest ih =>
    intro hnd
    rw [List.map_cons, List.nodup_cons] at hnd
    rw [linkRuleEntries]
    cases hfind : alookup m (strLower e) with
    | none => exact ih hnd.2
    | some oid =>
      simp only []
      by_cases hz : oid ≠ 0
      · rw [if_pos hz]
        rw [List.nodup_cons]
        refine ⟨?_, ih hnd.2⟩
        intro hin
        obtain ⟨_, e', he', hl⟩ := linkRuleEntries_mem rid m rest (rid, oid) hin
        exact hnd.1 (alookup_inj m hval (strLower e') (strLower e) oid hl hfind ▸
          List.mem_map_of_mem strLower he')
      · rw [if_neg hz]
        exact ih hnd.2

/-- Rule-association rows are pairwise distinct and tagged with rule ids
below the counter. -/
def RowsOk (rows : List (Nat × Nat)) (b : Nat) : Prop :=
  rows.Nodup ∧ ∀ p ∈ rows, p.1 < b

theorem RowsOk.append (rows new : List (Nat × Nat)) (b : Nat)
    (h : RowsOk rows b) (hnew : new.Nodup) (hfst : ∀ p ∈ new, p.1 = b) :
    RowsOk (rows ++ new) (b + 1) := by
  constructor
  · rw [List.nodup_append]
    refine ⟨h.1, hnew, ?_⟩
    intro p hp hq
    exact absurd ((hfst p hq) ▸ h.2 p hp) (lt_irrefl b)
  · intro p hp
    rcases List.mem_append.mp hp with hp | hp
    · exact Nat.lt_succ_of_lt (h.2 p hp)
    · exact (hfst p hp) ▸ Nat.lt_succ_self b

/-- Hypothesis under which a rule's per-field entry sets cannot make one
object id appear twice: no two distinct entries of the (deduplicated)
source, destination or service sets agree after lower-casing. -/
def NoCaseDupEntries (r : Record) : Prop :=
  ((entrySet (alookup r "source")).map strLower).Nodup ∧
  ((entrySet (alookup r "destination")).map strLower).Nodup ∧
  ((entrySet (alookup r "service")).map strLower).Nodup

instance (r : Record) : Decidable (NoCaseDupEntries r) := by
  unfold NoCaseDupEntries
  infer_instance

theorem syncRulesAux_rowsOk (amap smap : NameMap)
    (hva : (amap.map Prod.snd).Nodup) (hvs : (smap.map Prod.snd).Nodup) :
    ∀ (l : List Record) (processed : List String) (st : Store),
      (∀ r ∈ l, NoCaseDupEntries r) →
      RowsOk st.rule_source_map st.nextRuleId →
      RowsOk st.rule_dest_map st.nextRuleId →
      RowsOk st.rule_service_map st.nextRuleId →
      (syncRulesAux amap smap l processed st).rule_source_map.Nodup ∧
      (syncRulesAux amap smap l processed st).rule_dest_map.Nodup ∧
      (syncRulesAux amap smap l processed st).rule_service_map.Nodup := by
  intro l
  induction l with
  | nil => exact fun processed st _ h1 h2 h3 => ⟨h1.1, h2.1, h3.1⟩
  | cons r rest ih =>
    intro processed st hall h1 h2 h3
    rw [syncRulesAux]
    cases recName r with
    | none => exact ih processed st (fun r' hr' => hall r' (List.mem_cons_of_mem _ hr')) h1 h2 h3
    | some name =>
      simp only []
      by_cases hc : name = "" ∨ (strLower name) ∈ processed
      · rw [if_pos hc]
        exact ih processed st (fun r' hr' => hall r' (List.mem_cons_of_mem _ hr')) h1 h2 h3
      · rw [if_neg hc]
        have hr := hall r (List.mem_cons_self _ _)
        refine ih _ _ (fun r' hr' => hall r' (List.mem_cons_of_mem _ hr')) ?_ ?_ ?_
        · exact RowsOk.append _ _ _ h1
            (linkRuleEntries_nodup st.nextRuleId amap hva _ hr.1)
            (fun p hp => (linkRuleEntries_mem _ amap _ p hp).1)
        · exact RowsOk.append _ _ _ h2
            (linkRuleEntries_nodup st.nextRuleId amap hva _ hr.2.1)
            (fun p hp => (linkRuleEntries_mem _ amap _ p hp).1)
        · exact RowsOk.append _ _ _ h3
            (linkRuleEntries_nodup st.nextRuleId smap hvs _ hr.2.2)
            (fun p hp => (linkRuleEntries_mem _ smap _ p hp).1)

theorem rebuildStore_eq (snap : Snapshot) :
    rebuildStore snap =
      syncRulesAux
        (groupInsert snap.addressGroup
          (sync_address_objects snap.address emptyStore []).2
          (sync_service_objects snap.service
            (sync_address_objects snap.address emptyStore []).1 []).1).2.1
        (sync_service_objects snap.service
          (sync_address_objects snap.address emptyStore []).1 []).2
        snap.rules []
        (linkGroups
          (groupInsert snap.addressGroup
            (sync_address_objects snap.address emptyStore []).2
            (sync_service_objects snap.service
              (sync_address_objects snap.address emptyStore []).1 []).1).2.1
          (groupInsert snap.addressGroup
            (sync_address_objects snap.address emptyStore []).2
            (sync_service_objects snap.service
              (sync_address_objects snap.address emptyStore []).1 []).1).2.2
          []
          (groupInsert snap.addressGroup
            (sync_address_objects snap.address emptyStore []).2
            (sync_service_objects snap.service
              (sync_address_objects snap.address emptyStore []).1 []).1).1) := rfl

/-- After a full rebuild the group-membership table has no duplicate pairs
(unconditionally, thanks to the in-memory `links` set), and the three rule
association tables have none provided no rule lists two case-variant
spellings of one object. -/
theorem rebuild_assoc_nodup (snap : Snapshot)
    (hrules : ∀ r ∈ snap.rules, NoCaseDupEntries r) :
    (rebuildStore snap).address_group_members.Nodup ∧
    (rebuildStore snap).rule_source_map.Nodup ∧
    (rebuildStore snap).rule_dest_map.Nodup ∧
    (rebuildStore snap).rule_service_map.Nodup := by
  rw [rebuildStore_eq]
  have hAf := sync_address_objects_frame snap.address emptyStore []
  have hAm := sync_address_objects_mapOk snap.address emptyStore [] (MapOk.nil _)
  generalize hA : sync_address_objects snap.address emptyStore [] = A at hAf hAm ⊢
  have hSf := sync_service_objects_frame snap.service A.1 []
  have hSm := sync_service_objects_mapOk snap.service A.1 [] (MapOk.nil _)
  generalize hS : sync_service_objects snap.service A.1 [] = S at hSf hSm ⊢
  have hGm : MapOk (groupInsert snap.addressGroup A.2 S.1).2.1
      (groupInsert snap.addressGroup A.2 S.1).1.nextAddrId := by
    apply groupInsert_mapOk
    rw [hSf.2.2.2.2.2.2.1]
    exact hAm
  have hGf := groupInsert_frame snap.addressGroup A.2 S.1
  generalize hG : groupInsert snap.addressGroup A.2 S.1 = G at hGm hGf ⊢
  have hLf := linkGroups_frame G.2.1 G.2.2 [] G.1
  have hGrows : G.1.address_group_members = ([] : List (Nat × Nat)) := by
    rw [hGf.2.2.1, hSf.2.2.1, hAf.2.2.1]
    rfl
  have hLnd : (linkGroups G.2.1 G.2.2 [] G.1).address_group_members.Nodup := by
    apply linkGroups_nodup
    · rw [hGrows]
      intro p hp
      cases hp
    · rw [hGrows]
      exact List.nodup_nil
  generalize hL : linkGroups G.2.1 G.2.2 [] G.1 = L at hLf hLnd ⊢
  have hRf := syncRulesAux_frame G.2.1 S.2 snap.rules [] L
  have hsrc : L.rule_source_map = ([] : List (Nat × Nat)) := by
    rw [hLf.2.2.2.1, hGf.2.2.2.1, hSf.2.2.2.1, hAf.2.2.2.1]
    rfl
  have hdst : L.rule_dest_map = ([] : List (Nat × Nat)) := by
    rw [hLf.2.2.2.2.1, hGf.2.2.2.2.1, hSf.2.2.2.2.1, hAf.2.2.2.2.1]
    rfl
  have hsvc : L.rule_service_map = ([] : List (Nat × Nat)) := by
    rw [hLf.2.2.2.2.2.1, hGf.2.2.2.2.2.1, hSf.2.2.2.2.2.1, hAf.2.2.2.2.2.1]
    rfl
  have hrows := syncRulesAux_rowsOk G.2.1 S.2 hGm.1 hSm.1 snap.rules [] L hrules
    (by rw [hsrc]; exact ⟨List.nodup_nil, by simp⟩)
    (by rw [hdst]; exact ⟨List.nodup_nil, by simp⟩)
    (by rw [hsvc]; exact ⟨List.nodup_nil, by simp⟩)
  refine ⟨?_, hrows.1, hrows.2.1, hrows.2.2⟩
  rw [hRf.2.2.1]
  exact hLnd

/-- C3 counterexample: on the snapshot whose only rule lists the same
source object under the two spellings `"Web"` and `"WEB"`, `sync_all`
succeeds and `rule_source_map` ends up with the pair `(1, 1)` twice — the
rules phase deduplicates raw entry strings, not resolved `(rule, object)`
pairs, so the claim's universal no-duplicate-pair statement is false. -/
theorem assoc_dup_rows_cx :
    (sync_all snapDup 0 none stEx).1 = true ∧
    (sync_all snapDup 0 none stEx).2.committed.rule_source_map = [(1, 1), (1, 1)] ∧
    ¬ (sync_all snapDup 0 none stEx).2.committed.rule_source_map.Nodup := by
  refine ⟨by decide, by decide, by decide⟩

/-- C3 (amended): after a successful `sync_all`, `address_group_members`
never contains a duplicate pair; the three rule association tables contain
no duplicate pair provided no rule record lists two case-variant spellings
of the same entry within one source/destination/service set.  A group
record that lists the same member twice yields exactly one row for the
pair, and a rule record that lists the same entry twice (identical strings)
yields exactly the rows of listing it once — only case-variant spellings of
one object can produce duplicate rule rows (see `assoc_dup_rows_cx`). -/
theorem assoc_rows_amended (snap : Snapshot) (now : Nat) (st : SyncState)
    (failAt : Option Phase)
    (hsucc : (sync_all snap now failAt st).1 = true)
    (hrules : ∀ r ∈ snap.rules, NoCaseDupEntries r) :
    ((sync_all snap now failAt st).2.committed.address_group_members.Nodup ∧
     (sync_all snap now failAt st).2.committed.rule_source_map.Nodup ∧
     (sync_all snap now failAt st).2.committed.rule_dest_map.Nodup ∧
     (sync_all snap now failAt st).2.committed.rule_service_map.Nodup) ∧
    (∀ (gid : Nat) (amap : NameMap) (mname : String) (mid : Nat) (stx : Store),
      alookup amap (strLower mname) = some mid → mid ≠ 0 →
      (linkMembers gid amap ((memberList (FieldVal.l [mname, mname])).dedup) [] stx).1.address_group_members
        = stx.address_group_members ++ [(gid, mid)]) ∧
    (∀ (rid : Nat) (m : NameMap) (e : String),
      linkRuleEntries rid m (entrySet (some (FieldVal.l [e, e]))) =
        linkRuleEntries rid m (entrySet (some (FieldVal.l [e])))) := by
  have hlock : st.lock = false := by
    cases hl : st.lock
    · rfl
    · rw [(sync_all_single_flight snap now failAt st).1 hl] at hsucc
      exact absurd hsucc (by simp)
  have hfail : failAt = none := by
    cases failAt with
    | none => rfl
    | some ph =>
      rw [sync_all_failed snap now ph st hlock] at hsucc
      exact absurd hsucc (by simp)
  subst hfail
  rw [sync_all_success snap now st hlock]
  refine ⟨rebuild_assoc_nodup snap hrules, ?_, ?_⟩
  · intro gid amap mname mid stx hlook hmid
    have hded : (memberList (FieldVal.l [mname, mname])).dedup = [mname] := by
      rw [memberList]
      rw [List.dedup_cons_of_mem (List.mem_singleton.mpr rfl)]
      simp
    rw [hded, linkMembers, hlook]
    simp only []
    rw [if_pos ⟨hmid, List.not_mem_nil _⟩]
    rfl
  · intro rid m e
    have hded : entrySet (some (FieldVal.l [e, e])) = entrySet (some (FieldVal.l [e])) := by
      rw [entrySet, entrySet, List.dedup_cons_of_mem (List.mem_singleton.mpr rfl)]
    rw [hded]

/-- A rule record with a single, well-formed source reference. -/
def ruleRecEx : Record := [("name", FieldVal.s "r2"), ("source", FieldVal.l ["web"])]

/-- A snapshot with one address and one benign rule. -/
def snapRule : Snapshot := ⟨[addrRecEx], [], [], [ruleRecEx]⟩

/-- Closed instance of `assoc_rows_amended` on the benign snapshot. -/
theorem assoc_rows_amended_witness :
    (sync_all snapRule 0 none stEx).2.committed.address_group_members.Nodup ∧
    (sync_all snapRule 0 none stEx).2.committed.rule_source_map.Nodup := by
  have h := assoc_rows_amended snapRule 0 stEx none (by decide) (by decide)
  exact ⟨h.1.1, h.1.2.1⟩

/-- C7: unresolved references are dropped silently and resolvable ones of
the same record are still linked.  For rules: the emitted rows are exactly
the per-entry `filterMap` of the case-insensitive lookup — an entry with no
match (or a falsy id) contributes no row, every matched entry contributes
its row, and the loop is total (it never raises or aborts the cycle).  For
groups: every row of the output either pre-existed or comes from a member
that resolved in the address map, and every resolvable member of the record
ends up linked. -/
theorem unresolved_refs_dropped :
    (∀ (rid : Nat) (m : NameMap) (es : List String),
      linkRuleEntries rid m es = es.filterMap (fun e =>
        match alookup m (strLower e) with
        | some oid => if oid ≠ 0 then some (rid, oid) else none
        | none => none)) ∧
    (∀ (gid : Nat) (amap : NameMap) (ms : List String) (links : List (Nat × Nat)) (st : Store),
      (∀ p ∈ links, p ∈ st.address_group_members) →
      (∀ p ∈ (linkMembers gid amap ms links st).1.address_group_members,
        p ∈ st.address_group_members ∨
          ∃ e ∈ ms, alookup amap (strLower e) = some p.2 ∧ p.1 = gid) ∧
      (∀ e ∈ ms, ∀ mid, alookup amap (strLower e) = some mid → mid ≠ 0 →
        (gid, mid) ∈ (linkMembers gid amap ms links st).1.address_group_members)) := by
  constructor
  · intro rid m es
    induction es with
    | nil => rfl
    | cons e rest ih =>
      rw [linkRuleEntries, List.filterMap_cons]
      cases hfind : alookup m (strLower e) with
      | none => exact ih
      | some oid =>
        simp only []
        by_cases hz : oid ≠ 0
        · rw [if_pos hz, ih, if_pos hz]
        · rw [if_neg hz, ih, if_neg hz]
  · intro gid amap ms links st hsub
    exact ⟨linkMembers_sound gid amap ms links st,
      fun e he mid hlook hmid => linkMembers_covers gid amap ms links st hsub e he mid hlook hmid⟩

/-- Closed instance of `unresolved_refs_dropped`: with the map `{web ↦ 1}`,
the rule entries `["Web", "ghost"]` produce exactly the row for `Web`
(the dangling `ghost` is dropped), and linking members `["Web", "ghost"]`
into group 5 yields the row `(5, 1)`. -/
theorem unresolved_refs_dropped_witness :
    linkRuleEntries 3 [("web", 1)] ["Web", "ghost"] = [(3, 1)] ∧
    (5, 1) ∈ (linkMembers 5 [("web", 1)] ["Web", "ghost"] [] emptyStore).1.address_group_members := by
  constructor
  · rw [unresolved_refs_dropped.1 3 [("web", 1)] ["Web", "ghost"]]
    decide
  · exact (unresolved_refs_dropped.2 5 [("web", 1)] ["Web", "ghost"] [] emptyStore
      (by intro p hp; cases hp)).2 "Web" (by decide) 1 (by decide) (by decide)

end NetOps
